import Mathlib

set_option maxRecDepth 8000

namespace TechTree

/-- Direct dependency record of one entity: its direct structure prerequisites
and its direct unit prerequisites, in declared order
(src/bot/terran_tech_tree.py, values of `TERRAN_TECH_TREE`). -/
structure DependencyRecord where
  buildings : List String
  units : List String
deriving Repr, DecidableEq

/-- The fixed Terran tech tree table, transcribed entry by entry from
`TERRAN_TECH_TREE` in src/bot/terran_tech_tree.py, in declaration order. -/
def TERRAN_TECH_TREE : List (String × DependencyRecord) := [
  ("CommandCenter", ⟨[], []⟩),
  ("SupplyDepot", ⟨[], []⟩),
  ("Refinery", ⟨[], []⟩),
  ("Barracks", ⟨["SupplyDepot"], []⟩),
  ("OrbitalCommand", ⟨["Barracks"], []⟩),
  ("PlanetaryFortress", ⟨["EngineeringBay"], []⟩),
  ("EngineeringBay", ⟨["CommandCenter"], []⟩),
  ("Bunker", ⟨["Barracks"], []⟩),
  ("MissileTurret", ⟨["EngineeringBay"], []⟩),
  ("SensorTower", ⟨["EngineeringBay"], []⟩),
  ("GhostAcademy", ⟨["Barracks"], []⟩),
  ("Factory", ⟨["Barracks"], []⟩),
  ("Armory", ⟨["Factory"], []⟩),
  ("Starport", ⟨["Factory"], []⟩),
  ("FusionCore", ⟨["Starport"], []⟩),
  ("BarracksTechLab", ⟨["Barracks"], []⟩),
  ("BarracksReactor", ⟨["Barracks"], []⟩),
  ("FactoryTechLab", ⟨["Factory"], []⟩),
  ("FactoryReactor", ⟨["Factory"], []⟩),
  ("StarportTechLab", ⟨["Starport"], []⟩),
  ("StarportReactor", ⟨["Starport"], []⟩),
  ("SCV", ⟨["CommandCenter"], []⟩),
  ("MULE", ⟨["OrbitalCommand"], []⟩),
  ("Marine", ⟨["Barracks"], []⟩),
  ("Reaper", ⟨["Barracks"], []⟩),
  ("Marauder", ⟨["Barracks", "BarracksTechLab"], []⟩),
  ("Ghost", ⟨["Barracks", "BarracksTechLab", "GhostAcademy"], []⟩),
  ("Hellion", ⟨["Factory"], []⟩),
  ("Hellbat", ⟨["Factory", "Armory"], []⟩),
  ("WidowMine", ⟨["Factory"], []⟩),
  ("Cyclone", ⟨["Factory", "FactoryTechLab"], []⟩),
  ("SiegeTank", ⟨["Factory", "FactoryTechLab"], []⟩),
  ("Thor", ⟨["Factory", "FactoryTechLab", "Armory"], []⟩),
  ("Viking", ⟨["Starport"], []⟩),
  ("Medivac", ⟨["Starport"], []⟩),
  ("Liberator", ⟨["Starport"], []⟩),
  ("Banshee", ⟨["Starport", "StarportTechLab"], []⟩),
  ("Raven", ⟨["Starport", "StarportTechLab"], []⟩),
  ("Battlecruiser", ⟨["Starport", "StarportTechLab", "FusionCore"], []⟩),
  ("AutoTurret", ⟨["Starport", "StarportTechLab"], ["Raven"]⟩)]

/-- The defined entity names (keys of the table, in declaration order,
matching Python dict insertion order). -/
def techTreeKeys : List String := TERRAN_TECH_TREE.map Prod.fst

/-- Look up an entity's dependency record (Python `TERRAN_TECH_TREE[name]`,
as an Option since lookup can fail). -/
def lookupEntity (name : String) : Option DependencyRecord :=
  List.lookup name TERRAN_TECH_TREE

/-- Mutable state threaded through `resolve_dependencies`: the `visited` set
and the two accumulating output lists `all_buildings` / `all_units` of
`get_build_requirements` (src/bot/terran_tech_tree.py lines 217-219). -/
structure RState where
  visited : List String
  all_buildings : List String
  all_units : List String
deriving Repr, DecidableEq

/-- Recursive dependency resolution, embedding the inner
`resolve_dependencies` of src/bot/terran_tech_tree.py lines 221-244.
Python's unbounded recursion (which terminates because `visited` only grows)
is modelled with a fuel parameter; `get_build_requirements` supplies fuel
exceeding the number of entities, which bounds the depth of any call chain. -/
def resolve_dependencies (fuel : Nat) (name : String) (st : RState) : RState :=
  match fuel with
  | 0 => st
  | Nat.succ fuel =>
    if name ∈ st.visited then st
    else
      let st1 : RState := { st with visited := name :: st.visited }
      match lookupEntity name with
      | none => st1
      | some requirements =>
        let st2 : RState := requirements.buildings.foldl
          (fun acc building =>
            let acc1 := resolve_dependencies fuel building acc
            if building ∈ acc1.all_buildings then acc1
            else { acc1 with all_buildings := acc1.all_buildings ++ [building] }) st1
        requirements.units.foldl
          (fun acc unit =>
            let acc1 := resolve_dependencies fuel unit acc
            if unit ∈ acc1.all_units then acc1
            else { acc1 with all_units := acc1.all_units ++ [unit] }) st2

/-- Result of `get_build_requirements`: the returned dictionary with keys
"buildings", "units" and "immediate" (itself holding the direct lists). -/
structure BuildRequirements where
  buildings : List String
  units : List String
  immediate_buildings : List String
  immediate_units : List String
deriving Repr, DecidableEq

/-- Error raised by `get_build_requirements` for an unknown name: the Python
KeyError message carries the invalid name and the sorted list of all valid
entity names (src/bot/terran_tech_tree.py lines 213-215). -/
inductive TechError where
  | UnknownEntity (name : String) (available : List String)
deriving Repr, DecidableEq

/-- Boolean lexicographic comparison on strings, used to model Python
`sorted` on lists of names. -/
def strLe (a b : String) : Bool := decide (a ≤ b)

/-- Embedding of `get_build_requirements` (src/bot/terran_tech_tree.py
lines 197-259): raise for names absent from the table, otherwise run the
recursive resolution from fresh empty state and pair the accumulated
lists with the entity's own immediate requirements. -/
def get_build_requirements (unit_name : String) : Except TechError BuildRequirements :=
  if unit_name ∈ techTreeKeys then
    let immediate := (lookupEntity unit_name).getD ⟨[], []⟩
    let st := resolve_dependencies (techTreeKeys.length + 1) unit_name ⟨[], [], []⟩
    .ok ⟨st.all_buildings, st.all_units, immediate.buildings, immediate.units⟩
  else
    .error (.UnknownEntity unit_name (techTreeKeys.mergeSort strLe))

/-- Convenience accessor: the `buildings` list of a successful resolution,
empty for unknown names. -/
def resolved_buildings (name : String) : List String :=
  match get_build_requirements name with
  | .ok r => r.buildings
  | .error _ => []

/-- Convenience accessor: the `units` list of a successful resolution,
empty for unknown names. -/
def resolved_units (name : String) : List String :=
  match get_build_requirements name with
  | .ok r => r.units
  | .error _ => []

/-- Embedding of `can_build_unit` (src/bot/example_tech_tree_usage.py
lines 9-31): on success the missing set is the set difference of the
required buildings and the available ones, returned as a lexicographically
sorted list (Python `sorted(list(set(...) - set(...)))`); on KeyError a
sentinel single-entry list is returned with `can_build = False`. -/
def can_build_unit (unit_name : String) (available_buildings : List String) :
    Bool × List String :=
  match get_build_requirements unit_name with
  | .ok requirements =>
    let missing :=
      ((requirements.buildings.filter
          (fun b => decide (b ∉ available_buildings))).eraseDups).mergeSort strLe
    (missing.isEmpty, missing)
  | .error _ => (false, ["Unknown unit: " ++ unit_name])

/-- Embedding of `get_next_building_to_build` (src/bot/example_tech_tree_usage.py
lines 34-62): early `None` returns when the target is buildable or nothing is
missing, otherwise the first building of the stored build order absent from
`available_buildings`. The Python function re-calls `get_build_requirements`,
whose KeyError would propagate; that is modelled with Except. -/
def get_next_building_to_build (target_unit : String)
    (available_buildings : List String) : Except TechError (Option String) :=
  let r := can_build_unit target_unit available_buildings
  if r.1 then .ok none
  else if r.2.isEmpty then .ok none
  else
    match get_build_requirements target_unit with
    | .ok requirements =>
      .ok (requirements.buildings.find? (fun b => decide (b ∉ available_buildings)))
    | .error e => .error e

/-- One iteration of the step-by-step progression loop of
src/bot/example_tech_tree_usage.py lines 143-151: ask for the next building
and append it to the available list; when the answer is `none` (or an error)
the list is left unchanged. -/
def build_step (target : String) (avail : List String) : List String :=
  match get_next_building_to_build target avail with
  | .ok (some b) => avail ++ [b]
  | _ => avail

/-- Direct dependency record of an entity as stored in the table
(defaulting to the empty record for names outside the table). -/
def direct_record (name : String) : DependencyRecord :=
  (lookupEntity name).getD ⟨[], []⟩

/-- Boolean check that a resolved output sequence respects dependency order:
every direct prerequisite of an element that itself occurs in the sequence
occurs strictly earlier. -/
def seq_ordered (l : List String) : Bool :=
  l.all (fun X => ((direct_record X).buildings ++ (direct_record X).units).all
    (fun p => !(l.contains p) || decide (l.indexOf p < l.indexOf X)))

/-- Boolean check, for one entity, of deduplication and dependency ordering of
both resolved output sequences. -/
def entity_ok (E : String) : Bool :=
  decide (resolved_buildings E).Nodup && decide (resolved_units E).Nodup &&
  seq_ordered (resolved_buildings E) && seq_ordered (resolved_units E)

end TechTree

namespace TechTree

theorem mem_eraseDups_loop {α} [BEq α] [LawfulBEq α] (x : α) :
    ∀ (as bs : List α), x ∈ List.eraseDups.loop as bs ↔ x ∈ as ∨ x ∈ bs
  | [], bs => by simp [List.eraseDups.loop]
  | a :: as, bs => by
    rw [List.eraseDups.loop]
    cases h : bs.elem a with
    | true =>
      have ha : a ∈ bs := List.mem_of_elem_eq_true h
      rw [mem_eraseDups_loop x as bs]
      simp only [List.mem_cons]
      constructor
      · tauto
      · rintro (⟨rfl, _⟩ | h1 | h2) <;> tauto
    | false =>
      rw [mem_eraseDups_loop x as (a :: bs)]
      simp only [List.mem_cons]
      tauto

theorem mem_eraseDups {α} [BEq α] [LawfulBEq α] {x : α} {l : List α} :
    x ∈ l.eraseDups ↔ x ∈ l := by
  unfold List.eraseDups
  rw [mem_eraseDups_loop]
  simp

theorem strLe_trans : ∀ (a b c : String), strLe a b → strLe b c → strLe a c := by
  intro a b c hab hbc
  simp only [strLe, decide_eq_true_eq] at *
  exact le_trans hab hbc

theorem strLe_total : ∀ (a b : String), strLe a b || strLe b a := by
  intro a b
  simp only [strLe, Bool.or_eq_true, decide_eq_true_eq]
  exact le_total a b

theorem pairwise_le_mergeSort (l : List String) :
    List.Pairwise (· ≤ ·) (l.mergeSort strLe) :=
  (List.sorted_mergeSort strLe_trans strLe_total l).imp
    (fun h => by simpa [strLe] using h)

theorem gbr_eq_ok {name : String} (h : name ∈ techTreeKeys) :
    ∃ r, get_build_requirements name = .ok r := by
  unfold get_build_requirements
  rw [if_pos h]
  exact ⟨_, rfl⟩

theorem gbr_eq_error {name : String} (h : name ∉ techTreeKeys) :
    get_build_requirements name =
      .error (.UnknownEntity name (techTreeKeys.mergeSort strLe)) := by
  unfold get_build_requirements
  rw [if_neg h]

theorem resolved_buildings_eq {name : String} {r : BuildRequirements}
    (h : get_build_requirements name = .ok r) :
    resolved_buildings name = r.buildings := by
  unfold resolved_buildings
  rw [h]

theorem resolved_units_eq {name : String} {r : BuildRequirements}
    (h : get_build_requirements name = .ok r) :
    resolved_units name = r.units := by
  unfold resolved_units
  rw [h]

/-- Claim C2: resolving "Battlecruiser" succeeds and returns the buildings sequence
["SupplyDepot", "Barracks", "Factory", "Starport", "StarportTechLab",
"FusionCore"], element for element in that order. -/
theorem battlecruiser_buildings :
    (get_build_requirements "Battlecruiser").isOk = true ∧
    resolved_buildings "Battlecruiser" =
      ["SupplyDepot", "Barracks", "Factory", "Starport", "StarportTechLab",
       "FusionCore"] := by
  decide

/-- Claim C3: for every name absent from the dependency table, resolution fails with
an UnknownEntity error carrying the invalid name and a lexicographically
sorted list containing exactly the defined entity names; for every defined
name resolution succeeds. -/
theorem unknown_entity_error (s : String) :
    (s ∉ techTreeKeys →
      get_build_requirements s =
        .error (.UnknownEntity s (techTreeKeys.mergeSort strLe)) ∧
      List.Pairwise (· ≤ ·) (techTreeKeys.mergeSort strLe) ∧
      (∀ x, x ∈ techTreeKeys.mergeSort strLe ↔ x ∈ techTreeKeys)) ∧
    (s ∈ techTreeKeys → ∃ r, get_build_requirements s = .ok r) := by
  constructor
  · intro h
    refine ⟨gbr_eq_error h, pairwise_le_mergeSort _, ?_⟩
    intro x
    exact List.mem_mergeSort
  · intro h
    exact gbr_eq_ok h

/-- Witness for C3 at the concrete unknown name "UnknownThing" and the concrete
defined name "Marine". -/
theorem unknown_entity_error_witness :
    get_build_requirements "UnknownThing" =
      .error (.UnknownEntity "UnknownThing" (techTreeKeys.mergeSort strLe)) ∧
    (∃ r, get_build_requirements "Marine" = .ok r) :=
  ⟨((unknown_entity_error "UnknownThing").1 (by decide)).1,
   (unknown_entity_error "Marine").2 (by decide)⟩

/-- Claim C5: for every unknown target name and every available-structures list,
can_build_unit swallows the UnknownEntity error and returns canBuild false
together with the single sentinel entry naming the unknown unit. -/
theorem can_build_unit_unknown (name : String) (h : name ∉ techTreeKeys)
    (avail : List String) :
    can_build_unit name avail = (false, ["Unknown unit: " ++ name]) := by
  unfold can_build_unit
  rw [gbr_eq_error h]

/-- Witness for C5 at the concrete unknown name "UnknownThing". -/
theorem can_build_unit_unknown_witness :
    can_build_unit "UnknownThing" ["CommandCenter"] =
      (false, ["Unknown unit: " ++ "UnknownThing"]) :=
  can_build_unit_unknown "UnknownThing" (by decide) ["CommandCenter"]

/-- Claim C6: for every entry of the dependency table, resolving its name succeeds
and the immediate component equals the entry's declared direct structure and
unit lists, unexpanded and in declared order. -/
theorem immediate_equals_declared :
    ∀ entry ∈ TERRAN_TECH_TREE,
      (get_build_requirements entry.1).toOption.map
          (fun r => (r.immediate_buildings, r.immediate_units)) =
        some (entry.2.buildings, entry.2.units) := by
  decide

/-- Witness for C6 at the Battlecruiser entry of the table. -/
theorem immediate_equals_declared_witness :
    (get_build_requirements "Battlecruiser").toOption.map
        (fun r => (r.immediate_buildings, r.immediate_units)) =
      some (["Starport", "StarportTechLab", "FusionCore"], []) :=
  immediate_equals_declared
    ("Battlecruiser", ⟨["Starport", "StarportTechLab", "FusionCore"], []⟩)
    (by decide)

/-- Claim C8: no defined entity ever appears inside its own resolved buildings or
units sequence (no self-reference; the fixed graph is acyclic). -/
theorem no_self_reference :
    ∀ E ∈ techTreeKeys,
      E ∉ resolved_buildings E ∧ E ∉ resolved_units E := by
  decide

/-- Witness for C8 at the concrete entity "Battlecruiser". -/
theorem no_self_reference_witness :
    "Battlecruiser" ∉ resolved_buildings "Battlecruiser" ∧
    "Battlecruiser" ∉ resolved_units "Battlecruiser" :=
  no_self_reference "Battlecruiser" (by decide)

/-- Claim C9: the table is closed-world — every name referenced in any entry's
direct lists is itself a key — and consequently every element of every
resolved buildings or units sequence is itself a defined entity. -/
theorem closed_world :
    (∀ entry ∈ TERRAN_TECH_TREE,
      ∀ n ∈ entry.2.buildings ++ entry.2.units, n ∈ techTreeKeys) ∧
    (∀ E ∈ techTreeKeys,
      ∀ x ∈ resolved_buildings E ++ resolved_units E, x ∈ techTreeKeys) := by
  decide

/-- Witness for C9: the unit prerequisite "Raven" of "AutoTurret" is itself a
defined entity. -/
theorem closed_world_witness : "Raven" ∈ techTreeKeys :=
  closed_world.2 "AutoTurret" (by decide) "Raven" (by decide)

theorem entity_ok_all : techTreeKeys.all entity_ok = true := by decide

theorem seq_ordered_spec {l : List String} (h : seq_ordered l = true) :
    ∀ X ∈ l, ∀ p ∈ (direct_record X).buildings ++ (direct_record X).units,
      p ∈ l → l.indexOf p < l.indexOf X := by
  intro X hX p hp hm
  have h1 := List.all_eq_true.mp (List.all_eq_true.mp h X hX) p hp
  simp only [Bool.or_eq_true, Bool.not_eq_true', decide_eq_true_eq] at h1
  rcases h1 with hc | hlt
  · exact absurd hm (by simpa [List.contains, List.elem_eq_mem] using hc)
  · exact hlt

/-- Claim C1: for every defined entity, the resolved buildings and units sequences
are each deduplicated, and whenever a direct prerequisite of an element of a
sequence itself belongs to that sequence it occurs strictly earlier in it. -/
theorem resolved_dedup_ordered :
    ∀ E ∈ techTreeKeys,
      (resolved_buildings E).Nodup ∧ (resolved_units E).Nodup ∧
      (∀ X ∈ resolved_buildings E,
        ∀ p ∈ (direct_record X).buildings ++ (direct_record X).units,
          p ∈ resolved_buildings E →
            (resolved_buildings E).indexOf p < (resolved_buildings E).indexOf X) ∧
      (∀ X ∈ resolved_units E,
        ∀ p ∈ (direct_record X).buildings ++ (direct_record X).units,
          p ∈ resolved_units E →
            (resolved_units E).indexOf p < (resolved_units E).indexOf X) := by
  intro E hE
  have h := List.all_eq_true.mp entity_ok_all E hE
  simp only [entity_ok, Bool.and_eq_true, decide_eq_true_eq] at h
  obtain ⟨⟨⟨h1, h2⟩, h3⟩, h4⟩ := h
  exact ⟨h1, h2, seq_ordered_spec h3, seq_ordered_spec h4⟩

/-- Witness for C1 at the concrete entity "Thor", whose requirement set has a
diamond (FactoryTechLab and Armory both require Factory). -/
theorem resolved_dedup_ordered_witness :
    (resolved_buildings "Thor").Nodup ∧ (resolved_units "Thor").Nodup ∧
    (∀ X ∈ resolved_buildings "Thor",
      ∀ p ∈ (direct_record X).buildings ++ (direct_record X).units,
        p ∈ resolved_buildings "Thor" →
          (resolved_buildings "Thor").indexOf p <
            (resolved_buildings "Thor").indexOf X) ∧
    (∀ X ∈ resolved_units "Thor",
      ∀ p ∈ (direct_record X).buildings ++ (direct_record X).units,
        p ∈ resolved_units "Thor" →
          (resolved_units "Thor").indexOf p <
            (resolved_units "Thor").indexOf X) :=
  resolved_dedup_ordered "Thor" (by decide)

theorem can_build_unit_ok {name : String} {r : BuildRequirements}
    (h : get_build_requirements name = .ok r) (avail : List String) :
    can_build_unit name avail =
      ((((r.buildings.filter
            (fun b => decide (b ∉ avail))).eraseDups).mergeSort strLe).isEmpty,
       ((r.buildings.filter
            (fun b => decide (b ∉ avail))).eraseDups).mergeSort strLe) := by
  unfold can_build_unit
  rw [h]

theorem missing_isEmpty_iff (r : BuildRequirements) (avail : List String) :
    ((((r.buildings.filter
          (fun b => decide (b ∉ avail))).eraseDups).mergeSort strLe).isEmpty = true)
      ↔ ∀ b ∈ r.buildings, b ∈ avail := by
  rw [List.isEmpty_iff]
  constructor
  · intro he b hb
    by_contra hn
    have hmem : b ∈ ((r.buildings.filter
        (fun b => decide (b ∉ avail))).eraseDups).mergeSort strLe :=
      List.mem_mergeSort.mpr (mem_eraseDups.mpr
        (List.mem_filter.mpr ⟨hb, by simpa using hn⟩))
    rw [he] at hmem
    exact absurd hmem (List.not_mem_nil b)
  · intro hall
    apply List.eq_nil_iff_forall_not_mem.mpr
    intro x hx
    obtain ⟨h1, h2⟩ := List.mem_filter.mp (mem_eraseDups.mp (List.mem_mergeSort.mp hx))
    exact (by simpa using h2 : x ∉ avail) (hall x h1)

theorem mem_can_build_missing {name : String} {r : BuildRequirements}
    (h : get_build_requirements name = .ok r) (avail : List String) (x : String) :
    x ∈ (can_build_unit name avail).2 ↔ x ∈ r.buildings ∧ x ∉ avail := by
  rw [can_build_unit_ok h]
  simp only [List.mem_mergeSort, mem_eraseDups, List.mem_filter, decide_eq_true_eq]

theorem can_build_fst_iff {name : String} {r : BuildRequirements}
    (h : get_build_requirements name = .ok r) (avail : List String) :
    (can_build_unit name avail).1 = true ↔ ∀ b ∈ r.buildings, b ∈ avail := by
  rw [can_build_unit_ok h]
  exact missing_isEmpty_iff r avail

theorem can_build_missing_pairwise (name : String) (avail : List String) :
    List.Pairwise (· ≤ ·) (can_build_unit name avail).2 := by
  unfold can_build_unit
  cases h : get_build_requirements name with
  | ok r => exact pairwise_le_mergeSort _
  | error e => simp

theorem nodup_eraseDups_loop {α} [BEq α] [LawfulBEq α] :
    ∀ (as bs : List α), bs.Nodup → (List.eraseDups.loop as bs).Nodup
  | [], bs, h => by simpa [List.eraseDups.loop] using h
  | a :: as, bs, h => by
    rw [List.eraseDups.loop]
    cases he : bs.elem a with
    | true => exact nodup_eraseDups_loop as bs h
    | false =>
      apply nodup_eraseDups_loop as (a :: bs)
      refine List.nodup_cons.mpr ⟨?_, h⟩
      simp only [List.elem_eq_mem, decide_eq_false_iff_not] at he
      exact he

theorem nodup_eraseDups {α} [BEq α] [LawfulBEq α] (l : List α) :
    l.eraseDups.Nodup :=
  nodup_eraseDups_loop l [] List.nodup_nil

theorem can_build_missing_nodup (name : String) (avail : List String) :
    (can_build_unit name avail).2.Nodup := by
  unfold can_build_unit
  cases h : get_build_requirements name with
  | ok r => exact ((List.mergeSort_perm _ strLe).nodup_iff).mpr (nodup_eraseDups _)
  | error e => simp

theorem mergeSort_eq_of_sorted {l l2 : List String} (hp : l.Perm l2)
    (hs : List.Pairwise (· ≤ ·) l2) : l.mergeSort strLe = l2 :=
  List.eq_of_perm_of_sorted ((List.mergeSort_perm l strLe).trans hp)
    (pairwise_le_mergeSort l) hs

/-- Claim C4: for every defined target and every available list, canBuild is true
exactly when every resolved required building is available, and the missing
list is exactly the set difference of the required buildings and the
available ones sorted lexicographically — it is duplicate-free,
lexicographically ordered, and holds precisely the required-but-unavailable
buildings, which determines it uniquely; and the two concrete Marine
scenarios return (false, ["Barracks", "SupplyDepot"]) and (true, []). -/
theorem can_build_unit_correct :
    (∀ target ∈ techTreeKeys, ∀ avail : List String,
      ((can_build_unit target avail).1 = true ↔
        ∀ b ∈ resolved_buildings target, b ∈ avail) ∧
      (can_build_unit target avail).2.Nodup ∧
      List.Pairwise (· ≤ ·) (can_build_unit target avail).2 ∧
      (∀ x, x ∈ (can_build_unit target avail).2 ↔
        x ∈ resolved_buildings target ∧ x ∉ avail)) ∧
    can_build_unit "Marine" ["CommandCenter"] =
      (false, ["Barracks", "SupplyDepot"]) ∧
    can_build_unit "Marine" ["CommandCenter", "SupplyDepot", "Barracks"] =
      (true, []) := by
  have hM : get_build_requirements "Marine" =
      .ok ⟨["SupplyDepot", "Barracks"], [], ["Barracks"], []⟩ := by rfl
  have hBS : ("Barracks" : String) ≤ "SupplyDepot" := by
    rw [String.le_iff_toList_le]; decide
  refine ⟨?_, ?_, ?_⟩
  · intro target ht avail
    obtain ⟨r, hr⟩ := gbr_eq_ok ht
    rw [resolved_buildings_eq hr]
    exact ⟨can_build_fst_iff hr avail, can_build_missing_nodup target avail,
      can_build_missing_pairwise target avail,
      fun x => mem_can_build_missing hr avail x⟩
  · rw [can_build_unit_ok hM ["CommandCenter"]]
    have h1 : ((["SupplyDepot", "Barracks"] : List String).filter
        (fun b => decide (b ∉ (["CommandCenter"] : List String)))).eraseDups =
        ["SupplyDepot", "Barracks"] := by decide
    rw [h1, mergeSort_eq_of_sorted
      (List.Perm.swap "Barracks" "SupplyDepot" [])
      (List.Pairwise.cons
        (fun b hb => by rw [List.mem_singleton] at hb; subst hb; exact hBS)
        (by simp))]
    rfl
  · rw [can_build_unit_ok hM ["CommandCenter", "SupplyDepot", "Barracks"]]
    have h1 : ((["SupplyDepot", "Barracks"] : List String).filter
        (fun b => decide
          (b ∉ (["CommandCenter", "SupplyDepot", "Barracks"] : List String)))).eraseDups =
        [] := by decide
    rw [h1, List.mergeSort_nil]
    rfl

/-- Witness for C4's quantified part at target "Marine" with only a
CommandCenter available. -/
theorem can_build_unit_correct_witness :
    ((can_build_unit "Marine" ["CommandCenter"]).1 = true ↔
      ∀ b ∈ resolved_buildings "Marine", b ∈ ["CommandCenter"]) ∧
    (can_build_unit "Marine" ["CommandCenter"]).2.Nodup ∧
    List.Pairwise (· ≤ ·) (can_build_unit "Marine" ["CommandCenter"]).2 ∧
    (∀ x, x ∈ (can_build_unit "Marine" ["CommandCenter"]).2 ↔
      x ∈ resolved_buildings "Marine" ∧ x ∉ ["CommandCenter"]) :=
  can_build_unit_correct.1 "Marine" (by decide) ["CommandCenter"]

theorem gnb_eq_find {name : String} {r : BuildRequirements}
    (h : get_build_requirements name = .ok r) (avail : List String) :
    get_next_building_to_build name avail =
      .ok (r.buildings.find? (fun b => decide (b ∉ avail))) := by
  unfold get_next_building_to_build
  rw [can_build_unit_ok h]
  cases he : (((r.buildings.filter
      (fun b => decide (b ∉ avail))).eraseDups).mergeSort strLe).isEmpty with
  | true =>
    simp only [he, if_true]
    have hf : r.buildings.find? (fun b => decide (b ∉ avail)) = none := by
      rw [List.find?_eq_none]
      intro x hx
      simp only [decide_eq_true_eq, not_not]
      exact (missing_isEmpty_iff r avail).mp he x hx
    rw [hf]
  | false =>
    simp only [he, Bool.false_eq_true, if_false]
    rw [h]

/-- Claim C7: for every defined target and every available list,
get_next_building_to_build succeeds with the first entry of the stored
resolved buildings sequence absent from the available list, and yields none
exactly when every entry of that sequence is already available. -/
theorem next_building_correct :
    ∀ target ∈ techTreeKeys, ∀ avail : List String,
      get_next_building_to_build target avail =
        .ok ((resolved_buildings target).find? (fun b => decide (b ∉ avail))) ∧
      (get_next_building_to_build target avail = .ok none ↔
        ∀ b ∈ resolved_buildings target, b ∈ avail) := by
  intro target ht avail
  obtain ⟨r, hr⟩ := gbr_eq_ok ht
  rw [resolved_buildings_eq hr, gnb_eq_find hr avail]
  refine ⟨rfl, ?_⟩
  simp only [Except.ok.injEq, List.find?_eq_none, decide_eq_true_eq, not_not]

/-- Witness for C7 at target "SiegeTank" with SupplyDepot, Barracks and
CommandCenter available. -/
theorem next_building_correct_witness :
    get_next_building_to_build "SiegeTank"
        ["SupplyDepot", "Barracks", "CommandCenter"] =
      .ok ((resolved_buildings "SiegeTank").find?
        (fun b => decide (b ∉ ["SupplyDepot", "Barracks", "CommandCenter"]))) ∧
    (get_next_building_to_build "SiegeTank"
        ["SupplyDepot", "Barracks", "CommandCenter"] = .ok none ↔
      ∀ b ∈ resolved_buildings "SiegeTank",
        b ∈ ["SupplyDepot", "Barracks", "CommandCenter"]) :=
  next_building_correct "SiegeTank" (by decide)
    ["SupplyDepot", "Barracks", "CommandCenter"]

theorem resolved_buildings_nodup : ∀ E ∈ techTreeKeys,
    (resolved_buildings E).Nodup := by
  decide

theorem length_filter_append_lt (b : String) :
    ∀ (l avail : List String), l.Nodup → b ∈ l → b ∉ avail →
      (l.filter (fun x => decide (x ∉ avail ++ [b]))).length <
      (l.filter (fun x => decide (x ∉ avail))).length
  | [], _, _, hb, _ => absurd hb (List.not_mem_nil b)
  | a :: l, avail, hnd, hb, hba => by
    have hnd' : l.Nodup := (List.nodup_cons.mp hnd).2
    rcases List.mem_cons.mp hb with rfl | hbl
    · rw [List.filter_cons_of_neg (by simp [List.mem_append]),
        List.filter_cons_of_pos (by simp [hba])]
      have hmono : (l.filter (fun x => decide (x ∉ avail ++ [b]))).length ≤
          (l.filter (fun x => decide (x ∉ avail))).length := by
        rw [← List.countP_eq_length_filter, ← List.countP_eq_length_filter]
        apply List.countP_mono_left
        intro x _ hx
        simp only [decide_eq_true_eq, List.mem_append] at hx ⊢
        tauto
      simpa using Nat.lt_succ_of_le hmono
    · have hab : a ≠ b := fun h => (List.nodup_cons.mp hnd).1 (h ▸ hbl)
      have hsame : (decide (a ∉ avail ++ [b])) = (decide (a ∉ avail)) := by
        by_cases ha : a ∈ avail <;> simp [ha, List.mem_append, hab]
      have IH := length_filter_append_lt b l avail hnd' hbl hba
      cases hpa : decide (a ∉ avail) with
      | true =>
        rw [List.filter_cons_of_pos (p := fun x => decide (x ∉ avail ++ [b]))
            (by show decide (a ∉ avail ++ [b]) = true; rw [hsame]; exact hpa),
          List.filter_cons_of_pos (p := fun x => decide (x ∉ avail)) hpa]
        simpa using Nat.succ_lt_succ IH
      | false =>
        rw [List.filter_cons_of_neg (p := fun x => decide (x ∉ avail ++ [b]))
            (by show ¬ decide (a ∉ avail ++ [b]) = true; rw [hsame, hpa]; simp),
          List.filter_cons_of_neg (p := fun x => decide (x ∉ avail))
            (by show ¬ decide (a ∉ avail) = true; rw [hpa]; simp)]
        exact IH

theorem build_step_of_none {target : String} {avail : List String}
    (h : get_next_building_to_build target avail = .ok none) :
    build_step target avail = avail := by
  unfold build_step
  rw [h]

theorem build_step_of_some {target b : String} {avail : List String}
    (h : get_next_building_to_build target avail = .ok (some b)) :
    build_step target avail = avail ++ [b] := by
  unfold build_step
  rw [h]

theorem gnb_none_of_count_zero {target : String} {r : BuildRequirements}
    (h : get_build_requirements target = .ok r) (avail : List String)
    (hc : (r.buildings.filter (fun x => decide (x ∉ avail))).length = 0) :
    get_next_building_to_build target avail = .ok none := by
  rw [gnb_eq_find h avail]
  have hnil : r.buildings.filter (fun x => decide (x ∉ avail)) = [] :=
    List.length_eq_zero.mp hc
  rw [List.filter_eq_nil_iff] at hnil
  have : r.buildings.find? (fun x => decide (x ∉ avail)) = none := by
    rw [List.find?_eq_none]
    exact hnil
  rw [this]

theorem count_zero_of_gnb_none {target : String} {r : BuildRequirements}
    (h : get_build_requirements target = .ok r) (avail : List String)
    (hn : get_next_building_to_build target avail = .ok none) :
    (r.buildings.filter (fun x => decide (x ∉ avail))).length = 0 := by
  rw [gnb_eq_find h avail] at hn
  simp only [Except.ok.injEq] at hn
  rw [List.length_eq_zero, List.filter_eq_nil_iff]
  rw [List.find?_eq_none] at hn
  exact hn

theorem gnb_cases {target : String} {r : BuildRequirements}
    (h : get_build_requirements target = .ok r) (avail : List String) :
    get_next_building_to_build target avail = .ok none ∨
    ∃ b, get_next_building_to_build target avail = .ok (some b) ∧
      b ∈ r.buildings ∧ b ∉ avail := by
  rw [gnb_eq_find h avail]
  cases hf : r.buildings.find? (fun x => decide (x ∉ avail)) with
  | none => exact Or.inl rfl
  | some b =>
    refine Or.inr ⟨b, rfl, List.mem_of_find?_eq_some hf, ?_⟩
    have := List.find?_some hf
    simpa using this

theorem gnb_iterate_none {target : String} {r : BuildRequirements}
    (h : get_build_requirements target = .ok r) (hnd : r.buildings.Nodup) :
    ∀ (n : Nat) (avail : List String),
      (r.buildings.filter (fun x => decide (x ∉ avail))).length ≤ n →
      get_next_building_to_build target ((build_step target)^[n] avail) = .ok none
  | 0, avail, hle => by
    have h0 := Nat.le_zero.mp hle
    simpa using gnb_none_of_count_zero h avail h0
  | Nat.succ n, avail, hle => by
    rcases gnb_cases h avail with hnone | ⟨b, hsome, hbmem, hbav⟩
    · have h0 := count_zero_of_gnb_none h avail hnone
      have hrec := gnb_iterate_none h hnd n avail (by omega)
      rw [Function.iterate_succ_apply, build_step_of_none hnone]
      exact hrec
    · have hdec := length_filter_append_lt b r.buildings avail hnd hbmem hbav
      have hrec := gnb_iterate_none h hnd n (avail ++ [b]) (by omega)
      rw [Function.iterate_succ_apply, build_step_of_some hsome]
      exact hrec

/-- Claim C10: for every defined target and every starting available list, iterating
the loop step (ask for the next building, append it) for as many steps as the
resolved buildings sequence is long reaches a state where
get_next_building_to_build answers none — the loop terminates within that many
iterations because each step adds a missing required building. -/
theorem build_loop_terminates :
    ∀ target ∈ techTreeKeys, ∀ start : List String,
      get_next_building_to_build target
        ((build_step target)^[(resolved_buildings target).length] start) =
      .ok none := by
  intro target ht start
  obtain ⟨r, hr⟩ := gbr_eq_ok ht
  have hnd : r.buildings.Nodup := by
    have hn := resolved_buildings_nodup target ht
    rwa [resolved_buildings_eq hr] at hn
  rw [resolved_buildings_eq hr]
  exact gnb_iterate_none hr hnd r.buildings.length start
    (List.length_filter_le _ r.buildings)

/-- Witness for C10 at target "Thor" starting from a lone CommandCenter,
mirroring Example 3 of the usage script. -/
theorem build_loop_terminates_witness :
    get_next_building_to_build "Thor"
      ((build_step "Thor")^[(resolved_buildings "Thor").length]
        ["CommandCenter"]) = .ok none :=
  build_loop_terminates "Thor" (by decide) ["CommandCenter"]

end TechTree
